import Mathlib

/-!
Shallow embedding of the kompoti subtitle-catalog synchronization engine
(src/scraper.py) and proofs about its spec-level properties.

Python strings are modelled as `List Char`; Python dicts with a fixed field
set are modelled as structures with `Option` fields (a `none` field stands
for an absent key, and Python truthiness of a string value is `≠ ""`).
-/

namespace Scraper

/-- Python strings, modelled as lists of characters. -/
abbrev Str := List Char

/-- Whitespace characters recognized by Python's `str.split()` / `str.strip()`
(restricted to the ASCII whitespace characters that can occur here). -/
def isPySpace (c : Char) : Bool :=
  c = ' ' || c = '\t' || c = '\n' || c = '\r' || c = '\x0b' || c = '\x0c'

/-- Helper for `str.split()`: splits on whitespace, dropping empty pieces.
The accumulator holds the current word, reversed. -/
def splitWsAux : List Char → List Char → List Str
  | [], acc => if acc = [] then [] else [acc.reverse]
  | c :: cs, acc =>
    if isPySpace c then
      if acc = [] then splitWsAux cs [] else acc.reverse :: splitWsAux cs []
    else
      splitWsAux cs (c :: acc)

/-- Python `text.split()`: the list of maximal whitespace-free nonempty words. -/
def splitWs (s : Str) : List Str := splitWsAux s []

/-- Python `" ".join(ws)`: joins words with single spaces. -/
def joinWords : List Str → Str
  | [] => []
  | [w] => w
  | w :: ws => w ++ ' ' :: joinWords ws

/-- Embedding of `clean_text` (src/scraper.py:110):
`" ".join(text.replace("\n", " ").replace("\t", " ").split())`. -/
def clean_text (text : Str) : Str :=
  joinWords (splitWs ((text.map (fun c => if c = '\n' then ' ' else c)).map
    (fun c => if c = '\t' then ' ' else c)))

/-- Boolean test that the string `s` starts with the string `p`
(Python `s.startswith(p)`). -/
def strStartsWith : Str → Str → Bool
  | _, [] => true
  | [], _ :: _ => false
  | c :: cs, d :: ds => c = d && strStartsWith cs ds

/-- Python substring test `needle in hay`. -/
def strContains (hay needle : Str) : Bool :=
  match hay with
  | [] => strStartsWith [] needle
  | c :: t => strStartsWith (c :: t) needle || strContains t needle

/-- Python `s.strip()`: drop leading and trailing whitespace. -/
def pyStrip (s : Str) : Str :=
  ((s.dropWhile isPySpace).reverse.dropWhile isPySpace).reverse

/-- Embedding of `make_relative` (src/scraper.py:51-57): convert an absolute
URL to a relative one if it matches the base URL. -/
def make_relative (url base_url : Str) : Str :=
  if url = [] then url
  else if strStartsWith url base_url then url.drop base_url.length
  else url

/-- One downloadable variant inside a YTS payload (`torrent` dict).
Fields touched by `clean_yts_data` are explicit; `quality` stands for the
remaining data the cleaner leaves untouched. -/
structure Torrent where
  url : Option Str
  seeds : Option Nat
  peers : Option Nat
  date_uploaded : Option Str
  date_uploaded_unix : Option Nat
  quality : Str
deriving DecidableEq

/-- A YTS movie payload (the dict returned by `fetch_yts_movie`), with the
fields read or written by `clean_yts_data` and by the merge engine. -/
structure YtsData where
  url : Option Str
  background_image : Option Str
  small_cover_image : Option Str
  medium_cover_image : Option Str
  large_cover_image : Option Str
  large_screenshot_image1 : Option Str
  large_screenshot_image2 : Option Str
  large_screenshot_image3 : Option Str
  medium_screenshot_image1 : Option Str
  medium_screenshot_image2 : Option Str
  medium_screenshot_image3 : Option Str
  torrents : List Torrent
  date_uploaded : Option Str
  date_uploaded_unix : Option Nat
  background_image_original : Option Str
  title : Option Str
  description_full : Option Str
  year : Option Int
deriving DecidableEq

/-- Python `if data.get(field): data[field] = make_relative(data[field], base)`:
a present, truthy (nonempty) string field is relativized; an absent field or a
present empty string is left alone. -/
def relativizeField (f : Option Str) (base_url : Str) : Option Str :=
  match f with
  | none => none
  | some s => if s ≠ [] then some (make_relative s base_url) else some s

/-- Embedding of `clean_yts_data` (src/scraper.py:60-107): relativize the URL
fields and each torrent URL, prune the volatile fields, then clean the title
and (when truthy) the full description. The `let` steps mirror the source's
statement order. -/
def clean_yts_data (data : YtsData) (base_url : Str) : YtsData :=
  let d1 : YtsData :=
    { data with
      url := relativizeField data.url base_url
      background_image := relativizeField data.background_image base_url
      small_cover_image := relativizeField data.small_cover_image base_url
      medium_cover_image := relativizeField data.medium_cover_image base_url
      large_cover_image := relativizeField data.large_cover_image base_url
      large_screenshot_image1 := relativizeField data.large_screenshot_image1 base_url
      large_screenshot_image2 := relativizeField data.large_screenshot_image2 base_url
      large_screenshot_image3 := relativizeField data.large_screenshot_image3 base_url
      medium_screenshot_image1 := relativizeField data.medium_screenshot_image1 base_url
      medium_screenshot_image2 := relativizeField data.medium_screenshot_image2 base_url
      medium_screenshot_image3 := relativizeField data.medium_screenshot_image3 base_url }
  let d2 : YtsData :=
    { d1 with
      torrents := d1.torrents.map (fun t => { t with url := relativizeField t.url base_url }) }
  let d3 : YtsData :=
    { d2 with
      date_uploaded := none
      date_uploaded_unix := none
      background_image_original := none }
  let d4 : YtsData :=
    { d3 with
      torrents := d3.torrents.map (fun t =>
        { t with seeds := none, peers := none, date_uploaded := none,
                 date_uploaded_unix := none }) }
  let d5 : YtsData := { d4 with title := some (clean_text (d4.title.getD [])) }
  match d5.description_full with
  | some s => if s ≠ [] then { d5 with description_full := some (clean_text s) } else d5
  | none => d5

/-- The `td[id^='main']` cell of one listing row, as far as filename
extraction reads it: the `title` attribute of a `span[title]` child when one
exists, and the cell's stripped text pieces. -/
structure TdCell where
  spanTitle : Option Str
  texts : List Str
deriving DecidableEq

/-- Embedding of the filename-extraction fragment of `parse_subtitles`
(src/scraper.py:252-267): a truthy `span[title]` attribute wins; otherwise the
second stripped text of the cell is used unless it is falsy, a known
placeholder, or contains "search results"; otherwise the (cleaned) movie name. -/
def extract_filename (td : Option TdCell) (name : Str) : Str :=
  let filename : Option Str :=
    match td with
    | none => none
    | some cell =>
      let fromSpan : Option Str :=
        match cell.spanTitle with
        | some s => if s ≠ [] then some s else none
        | none => none
      match fromSpan with
      | some s => some s
      | none =>
        match cell.texts.map pyStrip with
        | _ :: fallback :: _ =>
          if fallback ≠ [] ∧ fallback ≠ "Watch online".toList ∧
              fallback ≠ "Download Subtitles Searcher".toList ∧
              strContains fallback "search results".toList = false then
            some fallback
          else none
        | _ => none
  match filename with
  | some f => f
  | none => name

/-- A persisted subtitle item `{id, filename, download_link}` (src/scraper.py:344-348). -/
structure SubItem where
  id : Nat
  filename : Str
  download_link : Str
deriving DecidableEq

/-- A persisted catalog entry (src/scraper.py:390-405). `is_featured` is
`some true` exactly when the dict key was set. -/
structure Entry where
  title : Str
  year : Option Int
  subtitle_list : List SubItem
  date_uploaded : Str
  is_featured : Option Bool
  yts_data : Option YtsData
deriving DecidableEq

/-- The catalog (`results` dict): an insertion-ordered association list from
IMDb id to entry. Keys are unique in any state the program builds. -/
abbrev Catalog := List (Str × Entry)

/-- Python `results.get(imdb_id)` / `imdb_id in results`: first binding wins. -/
def lookupCat : Catalog → Str → Option Entry
  | [], _ => none
  | (k, e) :: rest, key => if k = key then some e else lookupCat rest key

/-- In-place mutation of the entry bound to `key` (first binding). -/
def updateCat : Catalog → Str → Entry → Catalog
  | [], _, _ => []
  | (k, e) :: rest, key, e' =>
    if k = key then (k, e') :: rest else (k, e) :: updateCat rest key e'

/-- Python dict insertion of a fresh key: appended in insertion order. -/
def insertCat (c : Catalog) (key : Str) (e : Entry) : Catalog := c ++ [(key, e)]

/-- One candidate record produced by `parse_subtitles` (src/scraper.py:269-275). -/
structure Candidate where
  id : Nat
  movie : Str
  filename : Str
  imdb_id : Option Str
  download_link : Str
deriving DecidableEq

/-- The response of `fetch_imdb_data`, as far as the merge engine reads it:
`plot` and `rating.voteCount`. -/
structure ImdbData where
  plot : Option Str
  voteCount : Option Nat
deriving DecidableEq

/-- The cycle's external collaborators, as deterministic oracles: the YTS
lookup+details call, the IMDb call, the Gemini credential and translation
call, and the current YTS base URL used for relativization. -/
structure Env where
  fetchYts : Str → Option YtsData
  fetchImdb : Str → Option ImdbData
  geminiKey : Option Str
  translate : Str → Option Str
  base : Str

/-- The featured-flag computation for a new movie (src/scraper.py:397-403):
`movie_year in [2025, 2026] and imdb_full_data` guards reading
`rating.voteCount`, which must be truthy and strictly above 7500. -/
def computeFeatured (movie_year : Option Int) (imdb_full : Option ImdbData) : Option Bool :=
  match movie_year, imdb_full with
  | some y, some d =>
    if y = 2025 ∨ y = 2026 then
      match d.voteCount with
      | some v => if v ≠ 0 ∧ v > 7500 then some true else none
      | none => none
    else none
  | _, _ => none

/-- The description chosen for a new movie (src/scraper.py:374-388): the
IMDb plot when truthy, translated when a credential is configured and the
translation is truthy, else kept as-is; `none` means the field is untouched. -/
def chooseDescription (env : Env) (imdb_full : Option ImdbData) : Option Str :=
  match imdb_full with
  | none => none
  | some d =>
    match d.plot with
    | none => none
    | some plot_en =>
      if plot_en ≠ [] then
        match env.geminiKey with
        | some _ =>
          match env.translate plot_en with
          | some t => if t ≠ [] then some t else some plot_en
          | none => some plot_en
        | none => some plot_en
      else none

/-- The catalog entry built for a new movie whose YTS enrichment succeeded
(src/scraper.py:362-405): the YTS payload is cleaned and relativized first,
then the chosen description (if any) overwrites `description_full` as-is, and
the entry snapshot (title, year, single subtitle item, timestamp, featured
flag, payload) is assembled. -/
def newEntry (env : Env) (now : Str) (sub : Candidate) (yts0 : YtsData) (imdb_id : Str) : Entry :=
  let cleaned_title := clean_text sub.movie
  let yts1 := clean_yts_data yts0 env.base
  let imdb_full := env.fetchImdb imdb_id
  let yts2 :=
    match chooseDescription env imdb_full with
    | some d => { yts1 with description_full := some d }
    | none => yts1
  { title := cleaned_title
    year := yts2.year
    subtitle_list := [⟨sub.id, sub.filename, sub.download_link⟩]
    date_uploaded := now
    is_featured := computeFeatured yts2.year imdb_full
    yts_data := some yts2 }

/-- Result of processing one candidate (or a whole listing): the updated
catalog, the `new_count` increment, and how many YTS enrichment calls
(`fetch_yts_movie`) were made. -/
structure StepOut where
  results : Catalog
  new_count : Nat
  enrich_calls : Nat
deriving DecidableEq

/-- Embedding of one iteration of the merge loop in `main`
(src/scraper.py:339-412) for one parsed subtitle row `sub`. -/
def processSub (env : Env) (now : Str) (results : Catalog) (sub : Candidate) : StepOut :=
  match sub.imdb_id with
  | none => ⟨results, 0, 0⟩
  | some imdb_id =>
    let sub_item : SubItem := ⟨sub.id, sub.filename, sub.download_link⟩
    match lookupCat results imdb_id with
    | some entry =>
      let existing_ids := entry.subtitle_list.map SubItem.id
      if sub_item.id ∈ existing_ids then
        ⟨results, 0, 0⟩
      else
        ⟨updateCat results imdb_id
          { entry with subtitle_list := entry.subtitle_list ++ [sub_item] }, 1, 0⟩
    | none =>
      match env.fetchYts imdb_id with
      | none => ⟨results, 0, 1⟩
      | some yts0 => ⟨insertCat results imdb_id (newEntry env now sub yts0 imdb_id), 1, 1⟩

/-- The whole merge loop of one cycle over the parsed listing, accumulating
the change counter and the number of enrichment calls. -/
def runCycle (env : Env) (now : Str) (results : Catalog) : List Candidate → StepOut
  | [] => ⟨results, 0, 0⟩
  | sub :: rest =>
    let o := processSub env now results sub
    let r := runCycle env now o.results rest
    ⟨r.results, o.new_count + r.new_count, o.enrich_calls + r.enrich_calls⟩

/-- The body of the save pass loop (src/scraper.py:418-420): when an entry has
a truthy `yts_data`, re-apply `clean_yts_data` to it. -/
def normEntry (base_url : Str) (e : Entry) : Entry :=
  match e.yts_data with
  | some d => { e with yts_data := some (clean_yts_data d base_url) }
  | none => e

/-- The save pass (src/scraper.py:417-420): re-apply `clean_yts_data` to the
truthy `yts_data` of every entry of the whole catalog. -/
def saveNormalize (results : Catalog) (base_url : Str) : Catalog :=
  results.map (fun p => (p.1, normEntry base_url p.2))

/-- Outcome of one full cycle: the in-memory catalog at the end of the cycle,
the change counter, and whether the catalog was persisted (and the recent
feed regenerated), which happens exactly when the counter is nonzero. -/
structure CycleOut where
  results : Catalog
  new_count : Nat
  saved : Bool
deriving DecidableEq

/-- One full cycle (src/scraper.py:339-444): merge every candidate, then, only
if the change counter is nonzero, run the save pass (which persists the
catalog and regenerates the feed). -/
def fullCycle (env : Env) (now : Str) (results : Catalog) (subs : List Candidate) : CycleOut :=
  let o := runCycle env now results subs
  if o.new_count > 0 then ⟨saveNormalize o.results env.base, o.new_count, true⟩
  else ⟨o.results, o.new_count, false⟩

/-- Normal form of the description handling at the end of `clean_yts_data`:
a truthy description is cleaned, an empty or absent one is left alone. -/
def cleanDescription : Option Str → Option Str
  | some s => if s ≠ [] then some (clean_text s) else some s
  | none => none

/-- Normal form of what `clean_yts_data` does to one torrent: relativize its
URL and prune the volatile fields. -/
def cleanTorrent (t : Torrent) (base_url : Str) : Torrent :=
  { url := relativizeField t.url base_url
    seeds := none
    peers := none
    date_uploaded := none
    date_uploaded_unix := none
    quality := t.quality }

/-- A URL is once-stable for a base URL when stripping the base prefix once
cannot produce a nonempty URL that again starts with a nonempty base. The
spec's argument for idempotence ("the prefix match fails on an already
relativized URL") is exactly this condition. -/
def urlStable (base_url u : Str) : Prop :=
  strStartsWith u base_url = true → strStartsWith (u.drop base_url.length) base_url = true →
    base_url = [] ∨ u.drop base_url.length = []

instance (base_url u : Str) : Decidable (urlStable base_url u) := by
  unfold urlStable
  infer_instance

/-- A payload is stable for a base URL when every URL-bearing field it holds
(the eleven top-level URL fields and each torrent URL) is once-stable. -/
def PayloadStable (base_url : Str) (d : YtsData) : Prop :=
  (∀ u, d.url = some u → urlStable base_url u) ∧
  (∀ u, d.background_image = some u → urlStable base_url u) ∧
  (∀ u, d.small_cover_image = some u → urlStable base_url u) ∧
  (∀ u, d.medium_cover_image = some u → urlStable base_url u) ∧
  (∀ u, d.large_cover_image = some u → urlStable base_url u) ∧
  (∀ u, d.large_screenshot_image1 = some u → urlStable base_url u) ∧
  (∀ u, d.large_screenshot_image2 = some u → urlStable base_url u) ∧
  (∀ u, d.large_screenshot_image3 = some u → urlStable base_url u) ∧
  (∀ u, d.medium_screenshot_image1 = some u → urlStable base_url u) ∧
  (∀ u, d.medium_screenshot_image2 = some u → urlStable base_url u) ∧
  (∀ u, d.medium_screenshot_image3 = some u → urlStable base_url u) ∧
  (∀ t ∈ d.torrents, ∀ u, t.url = some u → urlStable base_url u)

/-- State of one candidate after it has been processed once against a
catalog: either it carries no IMDb id, or its subtitle id is already recorded
under its key, or its key is absent and its YTS enrichment (deterministically)
fails. Candidates in this state are no-ops for the merge engine. -/
def PostCand (env : Env) (C : Catalog) (sub : Candidate) : Prop :=
  match sub.imdb_id with
  | none => True
  | some imdb_id =>
    (∃ e, lookupCat C imdb_id = some e ∧ sub.id ∈ e.subtitle_list.map SubItem.id) ∨
    (lookupCat C imdb_id = none ∧ env.fetchYts imdb_id = none)

/-- No two subtitle items of the entry share an id. -/
def EntryUnique (e : Entry) : Prop := (e.subtitle_list.map SubItem.id).Nodup

instance (e : Entry) : Decidable (EntryUnique e) := by
  unfold EntryUnique
  infer_instance

/-- Every entry of the catalog has pairwise-distinct subtitle ids. -/
def CatalogUnique (C : Catalog) : Prop := ∀ p ∈ C, EntryUnique p.2

instance (C : Catalog) : Decidable (CatalogUnique C) := by
  unfold CatalogUnique
  infer_instance

/-- Concrete base URL for counterexamples and witnesses. -/
def cexBase : Str := "https://example.com".toList

/-- A payload whose `url` field contains the base URL twice in a row; the
prefix match succeeds again after one stripping pass. -/
def cexPayload : YtsData :=
  { url := some "https://example.comhttps://example.com/img/a.png".toList
    background_image := none
    small_cover_image := none
    medium_cover_image := none
    large_cover_image := none
    large_screenshot_image1 := none
    large_screenshot_image2 := none
    large_screenshot_image3 := none
    medium_screenshot_image1 := none
    medium_screenshot_image2 := none
    medium_screenshot_image3 := none
    torrents := []
    date_uploaded := none
    date_uploaded_unix := none
    background_image_original := none
    title := none
    description_full := none
    year := some 2025 }

/-- A well-behaved payload for witnesses: one relative-izable URL, one
torrent, a title and description needing cleaning. -/
def witPayload : YtsData :=
  { url := some "https://example.com/movies/some-movie".toList
    background_image := some "https://cdn.other/bg.jpg".toList
    small_cover_image := none
    medium_cover_image := none
    large_cover_image := some "https://example.com/img/cover.jpg".toList
    large_screenshot_image1 := none
    large_screenshot_image2 := none
    large_screenshot_image3 := none
    medium_screenshot_image1 := none
    medium_screenshot_image2 := none
    medium_screenshot_image3 := none
    torrents := [{ url := some "https://example.com/torrent/1".toList
                   seeds := some 10
                   peers := some 3
                   date_uploaded := some "2025-01-01".toList
                   date_uploaded_unix := some 1735689600
                   quality := "1080p".toList }]
    date_uploaded := some "2025-01-01".toList
    date_uploaded_unix := some 1735689600
    background_image_original := some "https://example.com/img/bg-orig.jpg".toList
    title := some "Some  Movie\n(2025)".toList
    description_full := some "A plot\twith\nwhitespace.".toList
    year := some 2025 }

/-- Environment for witnesses: the one known movie enriches successfully, the
IMDb payload has a plot containing a newline and a high vote count, and no
translation credential is configured. -/
def witEnv : Env :=
  { fetchYts := fun k => if k = "tt9999999".toList then some witPayload else none
    fetchImdb := fun _ => some { plot := some "A\nB".toList, voteCount := some 8000 }
    geminiKey := none
    translate := fun _ => none
    base := cexBase }

/-- Environment in which every enrichment lookup fails. -/
def failEnv : Env :=
  { fetchYts := fun _ => none
    fetchImdb := fun _ => none
    geminiKey := none
    translate := fun _ => none
    base := cexBase }

/-- The listing candidate used by witnesses. -/
def witCand : Candidate :=
  { id := 42
    movie := "Some  Movie".toList
    filename := "Some.Movie.2025.WEB".toList
    imdb_id := some "tt9999999".toList
    download_link := "https://dl.opensubtitles.org/en/download/sub/42".toList }

/-- The catalog entry the witness catalog holds for the witness candidate. -/
def witEntry : Entry :=
  { title := "Some Movie".toList
    year := some 2025
    subtitle_list := [⟨42, "Some.Movie.2025.WEB".toList,
      "https://dl.opensubtitles.org/en/download/sub/42".toList⟩]
    date_uploaded := "2025-01-01 00:00:00".toList
    is_featured := some true
    yts_data := none }

/-- A catalog that already contains the witness candidate's movie and
subtitle id. -/
def witCatalog : Catalog := [("tt9999999".toList, witEntry)]

lemma map_id_of_mem {f : Char → Char} : ∀ {l : List Char}, (∀ c ∈ l, f c = c) → l.map f = l
  | [], _ => rfl
  | c :: t, h => by
    simp only [List.map_cons, h c (by simp)]
    rw [map_id_of_mem (fun x hx => h x (by simp [hx]))]

lemma splitWsAux_good : ∀ (cs acc : List Char), (∀ c ∈ acc, isPySpace c = false) →
    ∀ w ∈ splitWsAux cs acc, w ≠ [] ∧ ∀ c ∈ w, isPySpace c = false := by
  intro cs
  induction cs with
  | nil =>
    intro acc hacc w hw
    by_cases h : acc = []
    · simp [splitWsAux, h] at hw
    · simp only [splitWsAux, if_neg h, List.mem_singleton] at hw
      subst hw
      refine ⟨by simpa using h, fun c hc => hacc c (by simpa using hc)⟩
  | cons c t ih =>
    intro acc hacc w hw
    by_cases hsp : isPySpace c
    · by_cases h : acc = []
      · simp only [splitWsAux, if_pos hsp, if_pos h] at hw
        exact ih [] (by simp) w hw
      · simp only [splitWsAux, if_pos hsp, if_neg h, List.mem_cons] at hw
        rcases hw with rfl | hw
        · exact ⟨by simpa using h, fun x hx => hacc x (by simpa using hx)⟩
        · exact ih [] (by simp) w hw
    · simp only [splitWsAux, if_neg hsp] at hw
      refine ih (c :: acc) ?_ w hw
      intro x hx
      rcases List.mem_cons.mp hx with rfl | hx
      · exact eq_false_of_ne_true hsp
      · exact hacc x hx

lemma splitWsAux_word : ∀ (w cs acc : List Char), (∀ c ∈ w, isPySpace c = false) →
    splitWsAux (w ++ cs) acc = splitWsAux cs (w.reverse ++ acc) := by
  intro w
  induction w with
  | nil => simp
  | cons c t ih =>
    intro cs acc h
    have hc : isPySpace c = false := h c (by simp)
    simp only [List.cons_append, splitWsAux, hc, Bool.false_eq_true, if_false, List.append_eq]
    rw [ih cs (c :: acc) (fun x hx => h x (by simp [hx]))]
    simp

lemma splitWsAux_word_end (w acc : List Char) (h : ∀ c ∈ w, isPySpace c = false) :
    splitWsAux w acc = splitWsAux [] (w.reverse ++ acc) := by
  have := splitWsAux_word w [] acc h
  simpa using this

lemma splitWs_joinWords : ∀ ws : List Str,
    (∀ w ∈ ws, w ≠ [] ∧ ∀ c ∈ w, isPySpace c = false) →
    splitWs (joinWords ws) = ws := by
  intro ws
  induction ws with
  | nil => intro _; rfl
  | cons w ws ih =>
    intro h
    obtain ⟨hw, hwc⟩ := h w (by simp)
    cases ws with
    | nil =>
      show splitWs (joinWords [w]) = [w]
      have hj : joinWords [w] = w := rfl
      rw [hj]
      unfold splitWs
      rw [splitWsAux_word_end w [] hwc]
      simp [splitWsAux, hw]
    | cons w' ws' =>
      show splitWs (w ++ ' ' :: joinWords (w' :: ws')) = w :: w' :: ws'
      unfold splitWs
      rw [splitWsAux_word w _ [] hwc]
      have hsp : isPySpace ' ' = true := by decide
      have hacc : w.reverse ++ [] ≠ [] := by simpa using hw
      simp only [splitWsAux, hsp, if_true, if_neg hacc]
      have hrest := ih (fun x hx => h x (by simp [hx]))
      unfold splitWs at hrest
      rw [hrest]
      simp

lemma joinWords_chars : ∀ ws : List Str, (∀ w ∈ ws, ∀ c ∈ w, isPySpace c = false) →
    ∀ c ∈ joinWords ws, c = ' ' ∨ isPySpace c = false := by
  intro ws
  induction ws with
  | nil => intro _ c hc; simp [joinWords] at hc
  | cons w ws ih =>
    intro h c hc
    cases ws with
    | nil => exact Or.inr (h w (by simp) c hc)
    | cons w' ws' =>
      rcases List.mem_append.mp hc with hcw | hcj
      · exact Or.inr (h w (by simp) c hcw)
      · rcases List.mem_cons.mp hcj with rfl | hcj
        · exact Or.inl rfl
        · exact ih (fun x hx => h x (by simp [hx])) c hcj

lemma replace_id_of (l : List Char) (h : ∀ c ∈ l, c = ' ' ∨ isPySpace c = false) :
    (l.map (fun c => if c = '\n' then ' ' else c)).map (fun c => if c = '\t' then ' ' else c) = l := by
  rw [List.map_map]
  apply map_id_of_mem
  intro c hc
  rcases h c hc with rfl | hns
  · rfl
  · have hn : ¬c = '\n' := by intro h'; subst h'; simp [isPySpace] at hns
    have ht : ¬c = '\t' := by intro h'; subst h'; simp [isPySpace] at hns
    simp [Function.comp, hn, ht]

lemma clean_text_good (s : Str) :
    ∀ w ∈ splitWs ((s.map (fun c => if c = '\n' then ' ' else c)).map
      (fun c => if c = '\t' then ' ' else c)), w ≠ [] ∧ ∀ c ∈ w, isPySpace c = false :=
  splitWsAux_good _ [] (by simp)

lemma clean_text_idem (s : Str) : clean_text (clean_text s) = clean_text s := by
  conv_lhs => rw [clean_text]
  rw [show clean_text s = joinWords (splitWs ((s.map (fun c => if c = '\n' then ' ' else c)).map
    (fun c => if c = '\t' then ' ' else c))) from rfl]
  rw [replace_id_of _ (joinWords_chars _ (fun w hw => (clean_text_good s w hw).2))]
  rw [splitWs_joinWords _ (clean_text_good s)]

lemma strStartsWith_nil (p : Str) (h : strStartsWith [] p = true) : p = [] := by
  cases p with
  | nil => rfl
  | cons d ds => simp [strStartsWith] at h

lemma strStartsWith_append_drop : ∀ (s p : Str), strStartsWith s p = true →
    p ++ s.drop p.length = s := by
  intro s p
  induction p generalizing s with
  | nil => simp
  | cons d ds ih =>
    cases s with
    | nil => intro h; simp [strStartsWith] at h
    | cons c cs =>
      intro h
      simp only [strStartsWith, Bool.and_eq_true, decide_eq_true_eq] at h
      obtain ⟨rfl, h2⟩ := h
      simpa using ih cs h2

lemma make_relative_stable {b u : Str} (h : urlStable b u) :
    make_relative (make_relative u b) b = make_relative u b := by
  by_cases hu : u = []
  · simp [make_relative, hu]
  · by_cases hs : strStartsWith u b = true
    · have h1 : make_relative u b = u.drop b.length := by simp [make_relative, hu, hs]
      rw [h1]
      by_cases hr : u.drop b.length = []
      · simp [make_relative, hr]
      · by_cases hs2 : strStartsWith (u.drop b.length) b = true
        · rcases h hs hs2 with hb | hr2
          · simp [make_relative, hr, hb, hs2]
          · exact absurd hr2 hr
        · simp [make_relative, hr, hs2]
    · have h1 : make_relative u b = u := by simp [make_relative, hu, hs]
      rw [h1, h1]

lemma relativizeField_stable {b : Str} {f : Option Str}
    (h : ∀ u, f = some u → urlStable b u) :
    relativizeField (relativizeField f b) b = relativizeField f b := by
  cases f with
  | none => rfl
  | some u =>
    by_cases hu : u = []
    · simp [relativizeField, hu]
    · have h1 : relativizeField (some u) b = some (make_relative u b) := by
        simp [relativizeField, hu]
      rw [h1]
      by_cases hv : make_relative u b = []
      · simp [relativizeField, hv]
      · simp [relativizeField, hv, make_relative_stable (h u rfl)]

lemma clean_yts_data_eq (d : YtsData) (b : Str) :
    clean_yts_data d b =
      { url := relativizeField d.url b
        background_image := relativizeField d.background_image b
        small_cover_image := relativizeField d.small_cover_image b
        medium_cover_image := relativizeField d.medium_cover_image b
        large_cover_image := relativizeField d.large_cover_image b
        large_screenshot_image1 := relativizeField d.large_screenshot_image1 b
        large_screenshot_image2 := relativizeField d.large_screenshot_image2 b
        large_screenshot_image3 := relativizeField d.large_screenshot_image3 b
        medium_screenshot_image1 := relativizeField d.medium_screenshot_image1 b
        medium_screenshot_image2 := relativizeField d.medium_screenshot_image2 b
        medium_screenshot_image3 := relativizeField d.medium_screenshot_image3 b
        torrents := d.torrents.map (fun t => cleanTorrent t b)
        date_uploaded := none
        date_uploaded_unix := none
        background_image_original := none
        title := some (clean_text (d.title.getD []))
        description_full := cleanDescription d.description_full
        year := d.year } := by
  cases hd : d.description_full with
  | none =>
    simp [clean_yts_data, cleanDescription, cleanTorrent, hd, List.map_map, Function.comp]
  | some s =>
    by_cases hs : s = []
    · simp [clean_yts_data, cleanDescription, cleanTorrent, hd, hs, List.map_map, Function.comp]
    · simp [clean_yts_data, cleanDescription, cleanTorrent, hd, hs, List.map_map, Function.comp]

lemma cleanDescription_idem (o : Option Str) :
    cleanDescription (cleanDescription o) = cleanDescription o := by
  cases o with
  | none => rfl
  | some s =>
    by_cases hs : s = []
    · simp [cleanDescription, hs]
    · simp only [cleanDescription, if_pos (by simpa using hs : s ≠ [])]
      by_cases hc : clean_text s = []
      · simp [cleanDescription, hc]
      · simp [cleanDescription, hc, clean_text_idem]

lemma cleanTorrent_stable {b : Str} {t : Torrent}
    (h : ∀ u, t.url = some u → urlStable b u) :
    cleanTorrent (cleanTorrent t b) b = cleanTorrent t b := by
  simp [cleanTorrent, relativizeField_stable h]

/-- C2 (amended): the Normalizer is idempotent for every enrichment payload
whose URL-bearing fields are once-stable for the base URL, i.e. stripping the
base prefix once never yields a nonempty URL that again starts with a
nonempty base; relativizing such an already-relativized URL, dropping an
already-absent field, and re-cleaning already-cleaned text are all no-ops. -/
theorem normalize_idem_of_stable (b : Str) (d : YtsData) (h : PayloadStable b d) :
    clean_yts_data (clean_yts_data d b) b = clean_yts_data d b := by
  obtain ⟨h1, h2, h3, h4, h5, h6, h7, h8, h9, h10, h11, ht⟩ := h
  rw [clean_yts_data_eq d b, clean_yts_data_eq]
  have htor : (d.torrents.map (fun t => cleanTorrent t b)).map (fun t => cleanTorrent t b)
      = d.torrents.map (fun t => cleanTorrent t b) := by
    rw [List.map_map]
    apply List.map_congr_left
    intro t htl
    show cleanTorrent (cleanTorrent t b) b = cleanTorrent t b
    exact cleanTorrent_stable (ht t htl)
  simp only [relativizeField_stable h1, relativizeField_stable h2, relativizeField_stable h3,
    relativizeField_stable h4, relativizeField_stable h5, relativizeField_stable h6,
    relativizeField_stable h7, relativizeField_stable h8, relativizeField_stable h9,
    relativizeField_stable h10, relativizeField_stable h11, htor,
    cleanDescription_idem, Option.getD_some, clean_text_idem]

/-- C2 counterexample: with the base URL occurring twice in a row inside the
url field, the prefix match succeeds again after the first stripping pass, so
applying the Normalizer twice differs from applying it once. -/
theorem normalize_idem_cex :
    clean_yts_data (clean_yts_data cexPayload cexBase) cexBase ≠
      clean_yts_data cexPayload cexBase := by decide

/-- C2 witness: a realistic payload (stable URLs, a torrent, whitespace in the
text fields) satisfies the stability hypothesis and the idempotence equation. -/
theorem normalize_idem_of_stable_wit :
    PayloadStable cexBase witPayload ∧
    clean_yts_data (clean_yts_data witPayload cexBase) cexBase =
      clean_yts_data witPayload cexBase := by
  have hp : PayloadStable cexBase witPayload := by
    refine ⟨?_, ?_, ?_, ?_, ?_, ?_, ?_, ?_, ?_, ?_, ?_, ?_⟩
    · intro u hu; simp only [witPayload, Option.some.injEq] at hu; subst hu; decide
    · intro u hu; simp only [witPayload, Option.some.injEq] at hu; subst hu; decide
    · intro u hu; simp [witPayload] at hu
    · intro u hu; simp [witPayload] at hu
    · intro u hu; simp only [witPayload, Option.some.injEq] at hu; subst hu; decide
    · intro u hu; simp [witPayload] at hu
    · intro u hu; simp [witPayload] at hu
    · intro u hu; simp [witPayload] at hu
    · intro u hu; simp [witPayload] at hu
    · intro u hu; simp [witPayload] at hu
    · intro u hu; simp [witPayload] at hu
    · intro t htl u hu
      simp only [witPayload, List.mem_singleton] at htl
      subst htl
      simp only [Option.some.injEq] at hu
      subst hu
      decide
  exact ⟨hp, normalize_idem_of_stable cexBase witPayload hp⟩

/-- C9: if the URL starts with the base URL, `make_relative` removes exactly
that prefix, otherwise it returns the URL unchanged; concretely,
"https://example.com/img/a.png" under base "https://example.com" becomes
"/img/a.png", and "https://cdn.other/a.png" is returned unchanged. -/
theorem make_relative_spec :
    (∀ url base_url : Str, strStartsWith url base_url = true →
      make_relative url base_url = url.drop base_url.length ∧
      base_url ++ make_relative url base_url = url) ∧
    (∀ url base_url : Str, strStartsWith url base_url = false →
      make_relative url base_url = url) ∧
    make_relative "https://example.com/img/a.png".toList "https://example.com".toList
      = "/img/a.png".toList ∧
    make_relative "https://cdn.other/a.png".toList "https://example.com".toList
      = "https://cdn.other/a.png".toList := by
  refine ⟨?_, ?_, by decide, by decide⟩
  · intro url b hs
    by_cases hu : url = []
    · subst hu
      have hb := strStartsWith_nil b hs
      subst hb
      simp [make_relative]
    · have h1 : make_relative url b = url.drop b.length := by simp [make_relative, hu, hs]
      exact ⟨h1, by rw [h1]; exact strStartsWith_append_drop url b hs⟩
  · intro url b hs
    by_cases hu : url = []
    · simp [make_relative, hu]
    · simp [make_relative, hu, hs]

/-- C9 witness: the prefix-matching case evaluated at the concrete example. -/
theorem make_relative_spec_wit :
    make_relative "https://example.com/img/a.png".toList "https://example.com".toList
      = ("https://example.com/img/a.png".toList).drop
          ("https://example.com".toList).length ∧
    "https://example.com".toList ++
        make_relative "https://example.com/img/a.png".toList "https://example.com".toList
      = "https://example.com/img/a.png".toList :=
  make_relative_spec.1 _ _ (by decide)

lemma lookupCat_mem {k : Str} {e : Entry} : ∀ C : Catalog, lookupCat C k = some e → (k, e) ∈ C := by
  intro C
  induction C with
  | nil => intro h; simp [lookupCat] at h
  | cons p rest ih =>
    intro h
    obtain ⟨k0, e0⟩ := p
    by_cases hk : k0 = k
    · subst hk
      simp only [lookupCat, if_true, eq_self_iff_true, Option.some.injEq] at h
      subst h
      simp
    · simp only [lookupCat, if_neg hk] at h
      exact List.mem_cons_of_mem _ (ih h)

lemma lookupCat_update_self {k : Str} {e e' : Entry} : ∀ C : Catalog,
    lookupCat C k = some e → lookupCat (updateCat C k e') k = some e' := by
  intro C
  induction C with
  | nil => intro h; simp [lookupCat] at h
  | cons p rest ih =>
    intro h
    obtain ⟨k0, e0⟩ := p
    by_cases hk : k0 = k
    · subst hk
      simp [updateCat, lookupCat]
    · simp only [lookupCat, if_neg hk] at h
      simp only [updateCat, if_neg hk, lookupCat, if_neg hk]
      exact ih h

lemma lookupCat_update_ne {k k' : Str} {e' : Entry} (hne : k' ≠ k) : ∀ C : Catalog,
    lookupCat (updateCat C k e') k' = lookupCat C k' := by
  intro C
  induction C with
  | nil => rfl
  | cons p rest ih =>
    obtain ⟨k0, e0⟩ := p
    by_cases hk : k0 = k
    · subst hk
      have hne' : ¬(k0 = k') := fun h => hne h.symm
      simp [updateCat, lookupCat, hne']
    · simp only [updateCat, if_neg hk, lookupCat]
      by_cases hk' : k0 = k'
      · simp [hk']
      · simp [hk', ih]

lemma lookupCat_insert_of_found {k k' : Str} {e e0 : Entry} {C : Catalog}
    (h : lookupCat C k' = some e0) : lookupCat (insertCat C k e) k' = some e0 := by
  induction C with
  | nil => simp [lookupCat] at h
  | cons p rest ih =>
    obtain ⟨k0, ep⟩ := p
    by_cases hk : k0 = k'
    · subst hk
      simp only [lookupCat, if_true, eq_self_iff_true, Option.some.injEq] at h
      simp [insertCat, lookupCat, h]
    · simp only [lookupCat, if_neg hk] at h
      simpa [insertCat, lookupCat, hk] using ih h

lemma lookupCat_insert_self {k : Str} {e : Entry} : ∀ C : Catalog,
    lookupCat C k = none → lookupCat (insertCat C k e) k = some e := by
  intro C
  induction C with
  | nil => intro _; simp [insertCat, lookupCat]
  | cons p rest ih =>
    intro h
    obtain ⟨k0, ep⟩ := p
    by_cases hk : k0 = k
    · simp [lookupCat, hk] at h
    · simp only [lookupCat, if_neg hk] at h
      simpa [insertCat, lookupCat, hk] using ih h

lemma lookupCat_insert_none {k k' : Str} {e : Entry} {C : Catalog}
    (h : lookupCat C k' = none) (hne : k ≠ k') : lookupCat (insertCat C k e) k' = none := by
  induction C with
  | nil => simp [insertCat, lookupCat, hne]
  | cons p rest ih =>
    obtain ⟨k0, ep⟩ := p
    by_cases hk : k0 = k'
    · simp [lookupCat, hk] at h
    · simp only [lookupCat, if_neg hk] at h
      simpa [insertCat, lookupCat, hk] using ih h

lemma mem_updateCat {p : Str × Entry} {k : Str} {e' : Entry} : ∀ C : Catalog,
    p ∈ updateCat C k e' → p ∈ C ∨ p = (k, e') := by
  intro C
  induction C with
  | nil => intro h; simp [updateCat] at h
  | cons q rest ih =>
    intro h
    obtain ⟨k0, e0⟩ := q
    by_cases hk : k0 = k
    · rw [updateCat, if_pos hk] at h
      rcases List.mem_cons.mp h with h | h
      · exact Or.inr (by rw [h, hk])
      · exact Or.inl (List.mem_cons_of_mem _ h)
    · rw [updateCat, if_neg hk] at h
      rcases List.mem_cons.mp h with h | h
      · exact Or.inl (by rw [h]; exact List.mem_cons_self _ _)
      · rcases ih h with h | h
        · exact Or.inl (List.mem_cons_of_mem _ h)
        · exact Or.inr h

lemma processSub_no_id {env : Env} {now : Str} {C : Catalog} {sub : Candidate}
    (h : sub.imdb_id = none) : processSub env now C sub = ⟨C, 0, 0⟩ := by
  unfold processSub
  rw [h]

lemma processSub_existing_known {env : Env} {now : Str} {C : Catalog} {sub : Candidate}
    {k : Str} {e : Entry} (h1 : sub.imdb_id = some k) (h2 : lookupCat C k = some e)
    (h3 : sub.id ∈ e.subtitle_list.map SubItem.id) :
    processSub env now C sub = ⟨C, 0, 0⟩ := by
  simp only [processSub, h1, h2]
  simp [h3]

lemma processSub_existing_new {env : Env} {now : Str} {C : Catalog} {sub : Candidate}
    {k : Str} {e : Entry} (h1 : sub.imdb_id = some k) (h2 : lookupCat C k = some e)
    (h3 : sub.id ∉ e.subtitle_list.map SubItem.id) :
    processSub env now C sub =
      ⟨updateCat C k { e with subtitle_list :=
        e.subtitle_list ++ [⟨sub.id, sub.filename, sub.download_link⟩] }, 1, 0⟩ := by
  simp only [processSub, h1, h2]
  simp [h3]

lemma processSub_new_fail {env : Env} {now : Str} {C : Catalog} {sub : Candidate}
    {k : Str} (h1 : sub.imdb_id = some k) (h2 : lookupCat C k = none)
    (h3 : env.fetchYts k = none) : processSub env now C sub = ⟨C, 0, 1⟩ := by
  simp only [processSub, h1, h2, h3]

lemma processSub_new_success {env : Env} {now : Str} {C : Catalog} {sub : Candidate}
    {k : Str} {y : YtsData} (h1 : sub.imdb_id = some k) (h2 : lookupCat C k = none)
    (h3 : env.fetchYts k = some y) :
    processSub env now C sub = ⟨insertCat C k (newEntry env now sub y k), 1, 1⟩ := by
  simp only [processSub, h1, h2, h3]

lemma entry_append_nil (e : Entry) : { e with subtitle_list := e.subtitle_list ++ [] } = e := by
  rw [List.append_nil]

lemma processSub_preserves (env : Env) (now : Str) (C : Catalog) (sub : Candidate)
    {k : Str} {e : Entry} (h : lookupCat C k = some e) :
    ∃ l, lookupCat (processSub env now C sub).results k =
      some { e with subtitle_list := e.subtitle_list ++ l } := by
  cases hid : sub.imdb_id with
  | none =>
    exact ⟨[], by rw [processSub_no_id hid, entry_append_nil]; exact h⟩
  | some k' =>
    cases hl : lookupCat C k' with
    | some entry =>
      by_cases hmem : sub.id ∈ entry.subtitle_list.map SubItem.id
      · exact ⟨[], by rw [processSub_existing_known hid hl hmem, entry_append_nil]; exact h⟩
      · by_cases hkk : k' = k
        · subst hkk
          have he : entry = e := by rw [hl] at h; exact Option.some.inj h
          subst he
          exact ⟨[⟨sub.id, sub.filename, sub.download_link⟩], by
            rw [processSub_existing_new hid hl hmem]
            exact lookupCat_update_self C hl⟩
        · exact ⟨[], by
            rw [processSub_existing_new hid hl hmem, entry_append_nil]
            rw [lookupCat_update_ne (fun h' => hkk h'.symm) C]
            exact h⟩
    | none =>
      cases hf : env.fetchYts k' with
      | none =>
        exact ⟨[], by rw [processSub_new_fail hid hl hf, entry_append_nil]; exact h⟩
      | some y =>
        exact ⟨[], by
          rw [processSub_new_success hid hl hf, entry_append_nil]
          exact lookupCat_insert_of_found h⟩

lemma processSub_absent (env : Env) (now : Str) (C : Catalog) (sub : Candidate)
    {k : Str} (h : lookupCat C k = none) :
    lookupCat (processSub env now C sub).results k = none ∨
      (sub.imdb_id = some k ∧ ∃ y, env.fetchYts k = some y) := by
  cases hid : sub.imdb_id with
  | none => exact Or.inl (by rw [processSub_no_id hid]; exact h)
  | some k' =>
    cases hl : lookupCat C k' with
    | some entry =>
      by_cases hmem : sub.id ∈ entry.subtitle_list.map SubItem.id
      · exact Or.inl (by rw [processSub_existing_known hid hl hmem]; exact h)
      · refine Or.inl ?_
        rw [processSub_existing_new hid hl hmem]
        have hkk : k' ≠ k := by
          intro h'
          subst h'
          rw [hl] at h
          exact Option.noConfusion h
        rw [lookupCat_update_ne (fun h' => hkk h'.symm) C]
        exact h
    | none =>
      cases hf : env.fetchYts k' with
      | none => exact Or.inl (by rw [processSub_new_fail hid hl hf]; exact h)
      | some y =>
        by_cases hkk : k' = k
        · subst hkk
          exact Or.inr ⟨rfl, y, hf⟩
        · exact Or.inl (by
            rw [processSub_new_success hid hl hf]
            exact lookupCat_insert_none h hkk)

lemma newEntry_subtitle_list (env : Env) (now : Str) (sub : Candidate) (y : YtsData)
    (k : Str) : (newEntry env now sub y k).subtitle_list
      = [⟨sub.id, sub.filename, sub.download_link⟩] := by
  unfold newEntry
  cases chooseDescription env (env.fetchImdb k) <;> rfl

lemma processSub_post_self (env : Env) (now : Str) (C : Catalog) (sub : Candidate) :
    PostCand env (processSub env now C sub).results sub := by
  cases hid : sub.imdb_id with
  | none => simp [PostCand, hid]
  | some k =>
    simp only [PostCand, hid]
    cases hl : lookupCat C k with
    | some e =>
      by_cases hmem : sub.id ∈ e.subtitle_list.map SubItem.id
      · rw [processSub_existing_known hid hl hmem]
        exact Or.inl ⟨e, hl, hmem⟩
      · rw [processSub_existing_new hid hl hmem]
        refine Or.inl ⟨_, lookupCat_update_self C hl, ?_⟩
        simp
    | none =>
      cases hf : env.fetchYts k with
      | none =>
        rw [processSub_new_fail hid hl hf]
        exact Or.inr ⟨hl, rfl⟩
      | some y =>
        rw [processSub_new_success hid hl hf]
        refine Or.inl ⟨_, lookupCat_insert_self C hl, ?_⟩
        rw [newEntry_subtitle_list]
        simp

lemma processSub_post_mono (env : Env) (now : Str) (C : Catalog) (s s' : Candidate)
    (h : PostCand env C s) : PostCand env (processSub env now C s').results s := by
  cases hid : s.imdb_id with
  | none => simp [PostCand, hid]
  | some k =>
    simp only [PostCand, hid] at h ⊢
    rcases h with ⟨e, hl, hmem⟩ | ⟨hl, hf⟩
    · obtain ⟨l, hl'⟩ := processSub_preserves env now C s' hl
      refine Or.inl ⟨_, hl', ?_⟩
      simp only [List.map_append, List.mem_append]
      exact Or.inl hmem
    · rcases processSub_absent env now C s' hl with h' | ⟨_, y, hy⟩
      · exact Or.inr ⟨h', hf⟩
      · rw [hf] at hy
        exact Option.noConfusion hy

lemma processSub_stable (env : Env) (now : Str) (C : Catalog) (sub : Candidate)
    (h : PostCand env C sub) :
    (processSub env now C sub).results = C ∧ (processSub env now C sub).new_count = 0 := by
  cases hid : sub.imdb_id with
  | none => rw [processSub_no_id hid]; exact ⟨rfl, rfl⟩
  | some k =>
    simp only [PostCand, hid] at h
    rcases h with ⟨e, hl, hmem⟩ | ⟨hl, hf⟩
    · rw [processSub_existing_known hid hl hmem]
      exact ⟨rfl, rfl⟩
    · rw [processSub_new_fail hid hl hf]
      exact ⟨rfl, rfl⟩

lemma runCycle_post_mono (env : Env) (now : Str) (s : Candidate) :
    ∀ (subs : List Candidate) (C : Catalog), PostCand env C s →
      PostCand env (runCycle env now C subs).results s := by
  intro subs
  induction subs with
  | nil => intro C h; exact h
  | cons x rest ih =>
    intro C h
    show PostCand env (runCycle env now (processSub env now C x).results rest).results s
    exact ih _ (processSub_post_mono env now C s x h)

lemma runCycle_post_all (env : Env) (now : Str) :
    ∀ (subs : List Candidate) (C : Catalog), ∀ s ∈ subs,
      PostCand env (runCycle env now C subs).results s := by
  intro subs
  induction subs with
  | nil => intro C s hs; simp at hs
  | cons x rest ih =>
    intro C s hs
    rcases List.mem_cons.mp hs with rfl | hs
    · show PostCand env (runCycle env now (processSub env now C s).results rest).results s
      exact runCycle_post_mono env now s rest _ (processSub_post_self env now C s)
    · exact ih _ s hs

lemma runCycle_stable (env : Env) (now : Str) :
    ∀ (subs : List Candidate) (C : Catalog), (∀ s ∈ subs, PostCand env C s) →
      (runCycle env now C subs).results = C ∧ (runCycle env now C subs).new_count = 0 := by
  intro subs
  induction subs with
  | nil => intro C _; exact ⟨rfl, rfl⟩
  | cons x rest ih =>
    intro C h
    obtain ⟨hr, hc⟩ := processSub_stable env now C x (h x (by simp))
    have ih' := ih C (fun s hs => h s (by simp [hs]))
    constructor
    · show (runCycle env now (processSub env now C x).results rest).results = C
      rw [hr]
      exact ih'.1
    · show (processSub env now C x).new_count
        + (runCycle env now (processSub env now C x).results rest).new_count = 0
      rw [hc, hr, ih'.2]

lemma lookupCat_saveNormalize (b k : Str) : ∀ C : Catalog,
    lookupCat (saveNormalize C b) k = (lookupCat C k).map (normEntry b) := by
  intro C
  induction C with
  | nil => rfl
  | cons p rest ih =>
    obtain ⟨k0, e0⟩ := p
    by_cases hk : k0 = k
    · simp [saveNormalize, lookupCat, hk]
    · simp only [saveNormalize, List.map_cons, lookupCat, if_neg hk]
      exact ih

lemma normEntry_subtitle_list (b : Str) (e : Entry) :
    (normEntry b e).subtitle_list = e.subtitle_list := by
  cases h : e.yts_data <;> simp [normEntry, h]

lemma normEntry_title (b : Str) (e : Entry) : (normEntry b e).title = e.title := by
  cases h : e.yts_data <;> simp [normEntry, h]

lemma normEntry_year (b : Str) (e : Entry) : (normEntry b e).year = e.year := by
  cases h : e.yts_data <;> simp [normEntry, h]

lemma normEntry_date_uploaded (b : Str) (e : Entry) :
    (normEntry b e).date_uploaded = e.date_uploaded := by
  cases h : e.yts_data <;> simp [normEntry, h]

lemma normEntry_is_featured (b : Str) (e : Entry) :
    (normEntry b e).is_featured = e.is_featured := by
  cases h : e.yts_data <;> simp [normEntry, h]

lemma postCand_saveNormalize (env : Env) (b : Str) (C : Catalog) (s : Candidate)
    (h : PostCand env C s) : PostCand env (saveNormalize C b) s := by
  cases hid : s.imdb_id with
  | none => simp [PostCand, hid]
  | some k =>
    simp only [PostCand, hid] at h ⊢
    rcases h with ⟨e, hl, hmem⟩ | ⟨hl, hf⟩
    · refine Or.inl ⟨normEntry b e, ?_, ?_⟩
      · rw [lookupCat_saveNormalize, hl]
        rfl
      · rw [normEntry_subtitle_list]
        exact hmem
    · refine Or.inr ⟨?_, hf⟩
      rw [lookupCat_saveNormalize, hl]
      rfl

lemma fullCycle_post_all (env : Env) (now : Str) (C : Catalog) (subs : List Candidate) :
    ∀ s ∈ subs, PostCand env (fullCycle env now C subs).results s := by
  intro s hs
  by_cases h : (runCycle env now C subs).new_count > 0
  · simp only [fullCycle, if_pos h]
    exact postCand_saveNormalize env env.base _ s (runCycle_post_all env now subs C s hs)
  · simp only [fullCycle, if_neg h]
    exact runCycle_post_all env now subs C s hs

lemma fullCycle_noop (env : Env) (now : Str) (C : Catalog) (subs : List Candidate)
    (h : ∀ s ∈ subs, PostCand env C s) : fullCycle env now C subs = ⟨C, 0, false⟩ := by
  obtain ⟨hr, hc⟩ := runCycle_stable env now subs C h
  simp [fullCycle, hr, hc]

/-- C1: running the merge engine a second time on the same unchanged listing
against the catalog produced by the first run makes zero changes (the change
counter stays zero, so nothing is persisted and the feed is not regenerated)
and leaves the catalog identical; and for a candidate whose external id and
subtitle id are already present, the step is a strict no-op: no subtitle item
is appended, no change is counted, and no enrichment call is made. -/
theorem merge_second_cycle_noop (env : Env) (now now' : Str) (C : Catalog)
    (subs : List Candidate) :
    fullCycle env now' (fullCycle env now C subs).results subs =
      ⟨(fullCycle env now C subs).results, 0, false⟩ ∧
    (∀ (C' : Catalog) (sub : Candidate) (k : Str) (e : Entry),
      sub.imdb_id = some k → lookupCat C' k = some e →
      sub.id ∈ e.subtitle_list.map SubItem.id →
      processSub env now' C' sub = ⟨C', 0, 0⟩) := by
  constructor
  · exact fullCycle_noop env now' _ subs (fullCycle_post_all env now C subs)
  · intro C' sub k e h1 h2 h3
    exact processSub_existing_known h1 h2 h3

/-- C1 witness: with the witness catalog already holding the candidate's
movie and subtitle id, reprocessing that candidate is a strict no-op. -/
theorem merge_second_cycle_noop_wit :
    processSub witEnv "2025-01-02 00:00:00".toList witCatalog witCand
      = ⟨witCatalog, 0, 0⟩ :=
  (merge_second_cycle_noop witEnv "2025-01-01 00:00:00".toList
      "2025-01-02 00:00:00".toList [] []).2
    witCatalog witCand "tt9999999".toList witEntry rfl (by decide) (by decide)

lemma runCycle_preserves (env : Env) (now : Str) (k : Str) :
    ∀ (subs : List Candidate) (C : Catalog) (e : Entry), lookupCat C k = some e →
      ∃ l, lookupCat (runCycle env now C subs).results k =
        some { e with subtitle_list := e.subtitle_list ++ l } := by
  intro subs
  induction subs with
  | nil =>
    intro C e h
    exact ⟨[], by rw [entry_append_nil]; exact h⟩
  | cons x rest ih =>
    intro C e h
    obtain ⟨l1, h1⟩ := processSub_preserves env now C x h
    obtain ⟨l2, h2⟩ := ih _ _ h1
    refine ⟨l1 ++ l2, ?_⟩
    show lookupCat (runCycle env now (processSub env now C x).results rest).results k = _
    rw [h2]
    simp [List.append_assoc]

lemma fullCycle_preserves (env : Env) (now : Str) (C : Catalog) (subs : List Candidate)
    {k : Str} {e : Entry} (h : lookupCat C k = some e) :
    ∃ (e' : Entry) (l : List SubItem),
      lookupCat (fullCycle env now C subs).results k = some e' ∧
      e'.subtitle_list = e.subtitle_list ++ l ∧
      e'.title = e.title ∧ e'.year = e.year ∧
      e'.date_uploaded = e.date_uploaded ∧ e'.is_featured = e.is_featured := by
  obtain ⟨l, hl⟩ := runCycle_preserves env now k subs C e h
  by_cases hc : (runCycle env now C subs).new_count > 0
  · refine ⟨normEntry env.base { e with subtitle_list := e.subtitle_list ++ l }, l,
      ?_, ?_, ?_, ?_, ?_, ?_⟩
    · simp only [fullCycle, if_pos hc]
      rw [lookupCat_saveNormalize, hl]
      rfl
    · rw [normEntry_subtitle_list]
    · rw [normEntry_title]
    · rw [normEntry_year]
    · rw [normEntry_date_uploaded]
    · rw [normEntry_is_featured]
  · refine ⟨{ e with subtitle_list := e.subtitle_list ++ l }, l, ?_, rfl, rfl, rfl, rfl, rfl⟩
    simp only [fullCycle, if_neg hc]
    exact hl

/-- C3: when a newly discovered movie's enrichment fails (the movie is not
found on YTS), the candidate is dropped with no side effect: the catalog is
returned unchanged, the change counter increment is zero (though one
enrichment call was made), no entry is created under its key, and the key is
still absent afterwards, so the candidate stays eligible for a later cycle. -/
theorem enrich_failure_no_side_effect (env : Env) (now : Str) (C : Catalog)
    (sub : Candidate) (k : Str) (h1 : sub.imdb_id = some k)
    (h2 : lookupCat C k = none) (h3 : env.fetchYts k = none) :
    processSub env now C sub = ⟨C, 0, 1⟩ ∧
    lookupCat (processSub env now C sub).results k = none := by
  have hp : processSub env now C sub = ⟨C, 0, 1⟩ := processSub_new_fail h1 h2 h3
  exact ⟨hp, by rw [hp]; exact h2⟩

/-- C3 witness: the witness candidate against an empty catalog in the
all-failures environment. -/
theorem enrich_failure_no_side_effect_wit :
    processSub failEnv "2025-01-01 00:00:00".toList [] witCand = ⟨[], 0, 1⟩ ∧
    lookupCat (processSub failEnv "2025-01-01 00:00:00".toList [] witCand).results
      "tt9999999".toList = none :=
  enrich_failure_no_side_effect failEnv "2025-01-01 00:00:00".toList [] witCand
    "tt9999999".toList rfl rfl rfl

/-- C6: the catalog is monotonic: every key present before a cycle is present
after it, bound to an entry with the same title, year, creation timestamp and
featured flag, whose subtitle list is the old one extended on the right — in
particular its length never decreases, and no entry is deleted or its key
reused. -/
theorem catalog_monotone (env : Env) (now : Str) (C : Catalog) (subs : List Candidate)
    (k : Str) (e : Entry) (h : lookupCat C k = some e) :
    ∃ (e' : Entry) (l : List SubItem),
      lookupCat (fullCycle env now C subs).results k = some e' ∧
      e'.subtitle_list = e.subtitle_list ++ l ∧
      e'.title = e.title ∧ e'.year = e.year ∧
      e'.date_uploaded = e.date_uploaded ∧ e'.is_featured = e.is_featured ∧
      e.subtitle_list.length ≤ e'.subtitle_list.length := by
  obtain ⟨e', l, h1, h2, h3, h4, h5, h6⟩ := fullCycle_preserves env now C subs h
  exact ⟨e', l, h1, h2, h3, h4, h5, h6, by rw [h2]; simp⟩

/-- C6 witness: the witness catalog's entry survives a full cycle on the
witness listing. -/
theorem catalog_monotone_wit :
    ∃ (e' : Entry) (l : List SubItem),
      lookupCat (fullCycle witEnv "2025-01-03 00:00:00".toList witCatalog
          [witCand]).results "tt9999999".toList = some e' ∧
      e'.subtitle_list = witEntry.subtitle_list ++ l ∧
      e'.title = witEntry.title ∧ e'.year = witEntry.year ∧
      e'.date_uploaded = witEntry.date_uploaded ∧ e'.is_featured = witEntry.is_featured ∧
      witEntry.subtitle_list.length ≤ e'.subtitle_list.length :=
  catalog_monotone witEnv "2025-01-03 00:00:00".toList witCatalog [witCand]
    "tt9999999".toList witEntry (by decide)

lemma entryUnique_append {e : Entry} {it : SubItem}
    (h : EntryUnique e) (hmem : it.id ∉ e.subtitle_list.map SubItem.id) :
    EntryUnique { e with subtitle_list := e.subtitle_list ++ [it] } := by
  unfold EntryUnique at h ⊢
  simp only [List.map_append, List.map_cons, List.map_nil]
  refine List.Nodup.append h (List.nodup_singleton _) ?_
  intro a ha hb
  simp only [List.mem_singleton] at hb
  subst hb
  exact hmem ha

lemma processSub_unique (env : Env) (now : Str) (C : Catalog) (sub : Candidate)
    (h : CatalogUnique C) : CatalogUnique (processSub env now C sub).results := by
  cases hid : sub.imdb_id with
  | none => rw [processSub_no_id hid]; exact h
  | some k =>
    cases hl : lookupCat C k with
    | some e =>
      by_cases hmem : sub.id ∈ e.subtitle_list.map SubItem.id
      · rw [processSub_existing_known hid hl hmem]
        exact h
      · rw [processSub_existing_new hid hl hmem]
        intro p hp
        rcases mem_updateCat C hp with hp | hp
        · exact h p hp
        · rw [hp]
          exact entryUnique_append (h _ (lookupCat_mem C hl)) hmem
    | none =>
      cases hf : env.fetchYts k with
      | none => rw [processSub_new_fail hid hl hf]; exact h
      | some y =>
        rw [processSub_new_success hid hl hf]
        intro p hp
        rcases List.mem_append.mp hp with hp | hp
        · exact h p hp
        · simp only [List.mem_singleton] at hp
          rw [hp]
          unfold EntryUnique
          rw [newEntry_subtitle_list]
          simp

lemma runCycle_unique (env : Env) (now : Str) :
    ∀ (subs : List Candidate) (C : Catalog), CatalogUnique C →
      CatalogUnique (runCycle env now C subs).results := by
  intro subs
  induction subs with
  | nil => intro C h; exact h
  | cons x rest ih =>
    intro C h
    show CatalogUnique (runCycle env now (processSub env now C x).results rest).results
    exact ih _ (processSub_unique env now C x h)

lemma saveNormalize_unique (b : Str) (C : Catalog) (h : CatalogUnique C) :
    CatalogUnique (saveNormalize C b) := by
  intro p hp
  simp only [saveNormalize, List.mem_map] at hp
  obtain ⟨q, hq, hpq⟩ := hp
  rw [← hpq]
  unfold EntryUnique
  rw [normEntry_subtitle_list]
  exact h q hq

/-- C5: pairwise-distinct subtitle ids inside every entry are an invariant of
the merge engine: if every entry of the catalog has unique subtitle ids, so
does every entry of the catalog produced by a full cycle (new-movie creation,
new-subtitle append and no-op all preserve it). -/
theorem subtitle_ids_unique (env : Env) (now : Str) (C : Catalog)
    (subs : List Candidate) (h : CatalogUnique C) :
    CatalogUnique (fullCycle env now C subs).results := by
  by_cases hc : (runCycle env now C subs).new_count > 0
  · simp only [fullCycle, if_pos hc]
    exact saveNormalize_unique env.base _ (runCycle_unique env now subs C h)
  · simp only [fullCycle, if_neg hc]
    exact runCycle_unique env now subs C h

/-- C5 witness: a full cycle on the witness catalog and listing keeps all
subtitle ids unique. -/
theorem subtitle_ids_unique_wit :
    CatalogUnique (fullCycle witEnv "2025-01-04 00:00:00".toList witCatalog
      [witCand]).results :=
  subtitle_ids_unique witEnv "2025-01-04 00:00:00".toList witCatalog [witCand] (by decide)

lemma clean_yts_data_year (d : YtsData) (b : Str) : (clean_yts_data d b).year = d.year := by
  rw [clean_yts_data_eq]

lemma newEntry_is_featured (env : Env) (now : Str) (sub : Candidate) (y : YtsData)
    (k : Str) : (newEntry env now sub y k).is_featured
      = computeFeatured y.year (env.fetchImdb k) := by
  unfold newEntry
  cases hcd : chooseDescription env (env.fetchImdb k) with
  | none =>
    simp only [hcd]
    rw [clean_yts_data_year]
  | some dsc =>
    simp only [hcd]
    rw [clean_yts_data_year]

/-- C4: a newly created entry is featured exactly when its year is 2025 or
2026 and the provider reported a vote count strictly above 7500; a vote count
of exactly 7500 is not featured and 7501 is; the flag is computed only at
creation time (existing entries keep their flag through any cycle). -/
theorem featured_flag_rule :
    (∀ (y : Option Int) (imdb : Option ImdbData),
      computeFeatured y imdb = some true ↔
        ((y = some 2025 ∨ y = some 2026) ∧
          ∃ d v, imdb = some d ∧ d.voteCount = some v ∧ 7500 < v)) ∧
    (∀ (y : Option Int) (imdb : Option ImdbData), computeFeatured y imdb ≠ some false) ∧
    computeFeatured (some 2025) (some { plot := none, voteCount := some 7500 }) = none ∧
    computeFeatured (some 2025) (some { plot := none, voteCount := some 7501 }) = some true ∧
    (∀ (env : Env) (now : Str) (C : Catalog) (subs : List Candidate) (k : Str) (e : Entry),
      lookupCat C k = some e →
      ∃ e', lookupCat (fullCycle env now C subs).results k = some e' ∧
        e'.is_featured = e.is_featured) ∧
    (∀ (env : Env) (now : Str) (C : Catalog) (sub : Candidate) (k : Str) (y : YtsData),
      sub.imdb_id = some k → lookupCat C k = none → env.fetchYts k = some y →
      lookupCat (processSub env now C sub).results k = some (newEntry env now sub y k) ∧
      (newEntry env now sub y k).is_featured = computeFeatured y.year (env.fetchImdb k)) := by
  refine ⟨?_, ?_, by decide, by decide, ?_, ?_⟩
  · intro y imdb
    constructor
    · intro h
      cases y with
      | none => simp [computeFeatured] at h
      | some yv =>
        cases imdb with
        | none => simp [computeFeatured] at h
        | some d =>
          simp only [computeFeatured] at h
          by_cases hy : yv = 2025 ∨ yv = 2026
          · rw [if_pos hy] at h
            cases hv : d.voteCount with
            | none => simp only [hv] at h; exact Option.noConfusion h
            | some v =>
              simp only [hv] at h
              by_cases hc : v ≠ 0 ∧ v > 7500
              · refine ⟨?_, d, v, rfl, hv, hc.2⟩
                rcases hy with rfl | rfl
                · exact Or.inl rfl
                · exact Or.inr rfl
              · rw [if_neg hc] at h; exact Option.noConfusion h
          · rw [if_neg hy] at h; exact Option.noConfusion h
    · rintro ⟨hy, d, v, rfl, hv, hgt⟩
      have hy' : ∃ yv : Int, y = some yv ∧ (yv = 2025 ∨ yv = 2026) := by
        rcases hy with rfl | rfl
        · exact ⟨2025, rfl, Or.inl rfl⟩
        · exact ⟨2026, rfl, Or.inr rfl⟩
      obtain ⟨yv, rfl, hyv⟩ := hy'
      have hne : v ≠ 0 := by omega
      simp [computeFeatured, hyv, hv, hne, hgt]
  · intro y imdb h
    cases y with
    | none => simp [computeFeatured] at h
    | some yv =>
      cases imdb with
      | none => simp [computeFeatured] at h
      | some d =>
        simp only [computeFeatured] at h
        by_cases hy : yv = 2025 ∨ yv = 2026
        · rw [if_pos hy] at h
          cases hv : d.voteCount with
          | none => simp only [hv] at h; exact Option.noConfusion h
          | some v =>
            simp only [hv] at h
            by_cases hc : v ≠ 0 ∧ v > 7500
            · rw [if_pos hc] at h
              exact Bool.noConfusion (Option.some.inj h)
            · rw [if_neg hc] at h; exact Option.noConfusion h
        · rw [if_neg hy] at h; exact Option.noConfusion h
  · intro env now C subs k e h
    obtain ⟨e', l, h1, h2, h3, h4, h5, h6⟩ := fullCycle_preserves env now C subs h
    exact ⟨e', h1, h6⟩
  · intro env now C sub k y h1 h2 h3
    constructor
    · rw [processSub_new_success h1 h2 h3]
      exact lookupCat_insert_self C h2
    · exact newEntry_is_featured env now sub y k

/-- C4 witness: the boundary instance through the rule, and the created
witness entry with its featured flag. -/
theorem featured_flag_rule_wit :
    computeFeatured (some 2025) (some { plot := none, voteCount := some 8000 })
      = some true ∧
    lookupCat (processSub witEnv "2025-01-01 00:00:00".toList [] witCand).results
        "tt9999999".toList
      = some (newEntry witEnv "2025-01-01 00:00:00".toList witCand witPayload
          "tt9999999".toList) ∧
    (newEntry witEnv "2025-01-01 00:00:00".toList witCand witPayload
        "tt9999999".toList).is_featured
      = computeFeatured witPayload.year
          (witEnv.fetchImdb "tt9999999".toList) := by
  refine ⟨(featured_flag_rule.1 _ _).mpr
    ⟨Or.inl rfl, { plot := none, voteCount := some 8000 }, 8000, rfl, rfl, by omega⟩, ?_, ?_⟩
  · exact (featured_flag_rule.2.2.2.2.2 witEnv "2025-01-01 00:00:00".toList [] witCand
      "tt9999999".toList witPayload rfl rfl (by decide)).1
  · exact (featured_flag_rule.2.2.2.2.2 witEnv "2025-01-01 00:00:00".toList [] witCand
      "tt9999999".toList witPayload rfl rfl (by decide)).2

/-- C10: whenever the cycle's change counter is nonzero, the cycle saves, and
the saved catalog is the whole merged catalog with the Normalizer re-applied
(against the current base URL) to the truthy payload of every entry — not
only the entries touched this cycle. -/
theorem save_pass_renormalizes_all (env : Env) (now : Str) (C : Catalog)
    (subs : List Candidate) (h : (runCycle env now C subs).new_count ≠ 0) :
    (fullCycle env now C subs).results
      = saveNormalize (runCycle env now C subs).results env.base ∧
    (fullCycle env now C subs).saved = true ∧
    (∀ k, lookupCat (fullCycle env now C subs).results k
      = (lookupCat (runCycle env now C subs).results k).map (normEntry env.base)) := by
  have hc : (runCycle env now C subs).new_count > 0 := Nat.pos_of_ne_zero h
  refine ⟨by simp only [fullCycle, if_pos hc], by simp only [fullCycle, if_pos hc], ?_⟩
  intro k
  simp only [fullCycle, if_pos hc]
  exact lookupCat_saveNormalize env.base k _

/-- C10 witness: the witness cycle creates one movie, so it saves and every
stored entry is normalized. -/
theorem save_pass_renormalizes_all_wit :
    (fullCycle witEnv "2025-01-01 00:00:00".toList [] [witCand]).results
      = saveNormalize (runCycle witEnv "2025-01-01 00:00:00".toList [] [witCand]).results
          witEnv.base ∧
    (fullCycle witEnv "2025-01-01 00:00:00".toList [] [witCand]).saved = true ∧
    (∀ k, lookupCat (fullCycle witEnv "2025-01-01 00:00:00".toList [] [witCand]).results k
      = (lookupCat (runCycle witEnv "2025-01-01 00:00:00".toList [] [witCand]).results k).map
          (normEntry witEnv.base)) :=
  save_pass_renormalizes_all witEnv "2025-01-01 00:00:00".toList [] [witCand] (by decide)

/-- C7 counterexample: in the witness environment the IMDb plot is "A\nB";
at the moment the new entry is created (the orchestrator has returned), the
stored synopsis is still the raw "A\nB" — the shared text-cleaning rule was
not applied to it, so the Normalizer was not the last step of enrichment. -/
theorem normalize_last_cex :
    ((processSub witEnv "2025-01-01 00:00:00".toList [] witCand).results.map
      (fun p => p.2.yts_data.map YtsData.description_full))
      = [some (some "A\nB".toList)] ∧
    clean_text "A\nB".toList ≠ "A\nB".toList := by
  constructor
  · decide
  · decide

/-- C7 (amended): the orchestrator hands the provider payload to the
Normalizer before the synopsis is chosen, and then attaches the chosen
synopsis raw, so at creation the entry's payload is the normalized provider
payload with the raw synopsis written over its description; the save pass
re-applies the Normalizer to every persisted payload, so whenever the cycle
saved, every stored payload is a Normalizer image: its title is cleaned text
and its nonempty synopsis is cleaned text. -/
theorem normalize_order (env : Env) (now : Str) :
    (∀ (C : Catalog) (sub : Candidate) (k : Str) (y : YtsData) (dsc : Str),
      sub.imdb_id = some k → lookupCat C k = none → env.fetchYts k = some y →
      chooseDescription env (env.fetchImdb k) = some dsc →
      lookupCat (processSub env now C sub).results k = some (newEntry env now sub y k) ∧
      (newEntry env now sub y k).yts_data =
        some { clean_yts_data y env.base with description_full := some dsc }) ∧
    (∀ (C : Catalog) (subs : List Candidate) (k : Str) (e : Entry) (d : YtsData),
      (fullCycle env now C subs).saved = true →
      lookupCat (fullCycle env now C subs).results k = some e →
      e.yts_data = some d →
      (∃ d0, d = clean_yts_data d0 env.base) ∧
      (∃ t, d.title = some (clean_text t)) ∧
      (∀ s, d.description_full = some s → s ≠ [] → ∃ s0, s = clean_text s0)) := by
  constructor
  · intro C sub k y dsc h1 h2 h3 hcd
    constructor
    · rw [processSub_new_success h1 h2 h3]
      exact lookupCat_insert_self C h2
    · unfold newEntry
      simp only [hcd]
  · intro C subs k e d hsaved hlook hyts
    by_cases hc : (runCycle env now C subs).new_count > 0
    · simp only [fullCycle, if_pos hc] at hlook
      rw [lookupCat_saveNormalize] at hlook
      cases hl : lookupCat (runCycle env now C subs).results k with
      | none => rw [hl] at hlook; exact Option.noConfusion hlook
      | some e0 =>
        rw [hl] at hlook
        have he : e = normEntry env.base e0 := (Option.some.inj hlook).symm
        subst he
        cases hy0 : e0.yts_data with
        | none =>
          rw [show normEntry env.base e0 = e0 by unfold normEntry; rw [hy0]] at hyts
          rw [hy0] at hyts
          exact Option.noConfusion hyts
        | some d0 =>
          have : (normEntry env.base e0).yts_data = some (clean_yts_data d0 env.base) := by
            unfold normEntry
            rw [hy0]
          rw [this] at hyts
          have hd : d = clean_yts_data d0 env.base := (Option.some.inj hyts).symm
          subst hd
          refine ⟨⟨d0, rfl⟩, ?_, ?_⟩
          · rw [clean_yts_data_eq]
            exact ⟨d0.title.getD [], rfl⟩
          · intro s hs hsne
            rw [clean_yts_data_eq] at hs
            simp only at hs
            cases hdf : d0.description_full with
            | none => rw [hdf] at hs; simp [cleanDescription] at hs
            | some s0 =>
              rw [hdf] at hs
              by_cases hs0 : s0 = []
              · rw [show cleanDescription (some s0) = some s0 by
                  simp [cleanDescription, hs0]] at hs
                rw [hs0] at hs
                exact absurd (Option.some.inj hs).symm hsne
              · rw [show cleanDescription (some s0) = some (clean_text s0) by
                  simp [cleanDescription, hs0]] at hs
                exact ⟨s0, (Option.some.inj hs).symm⟩
    · simp only [fullCycle, if_neg hc] at hsaved
      exact Bool.noConfusion hsaved

/-- C7 witness: the creation-order part of the amended claim at the witness
environment: the created entry holds the normalized payload with the raw
plot "A\nB" written over its description. -/
theorem normalize_order_wit :
    lookupCat (processSub witEnv "2025-01-05 00:00:00".toList [] witCand).results
        "tt9999999".toList
      = some (newEntry witEnv "2025-01-05 00:00:00".toList witCand witPayload
          "tt9999999".toList) ∧
    (newEntry witEnv "2025-01-05 00:00:00".toList witCand witPayload
        "tt9999999".toList).yts_data
      = some { clean_yts_data witPayload witEnv.base with
          description_full := some "A\nB".toList } :=
  (normalize_order witEnv "2025-01-05 00:00:00".toList).1 [] witCand
    "tt9999999".toList witPayload "A\nB".toList rfl rfl (by decide) (by decide)

/-- C8: filename extraction priority: a truthy title attribute on the inner
span wins; otherwise the second stripped text of the main cell is used unless
it is empty, "Watch online", the searcher label, or contains
"search results"; otherwise the cleaned movie title is used. Concretely, a
second token "Some.Movie.2024.WEB" is taken, and a row whose only fallback
text is "Watch online" yields the movie title. -/
theorem filename_priority :
    (∀ (cell : TdCell) (name s : Str), cell.spanTitle = some s → s ≠ [] →
      extract_filename (some cell) name = s) ∧
    (∀ (cell : TdCell) (name t0 fb : Str) (rest : List Str),
      (cell.spanTitle = none ∨ cell.spanTitle = some []) →
      cell.texts.map pyStrip = t0 :: fb :: rest →
      fb ≠ [] → fb ≠ "Watch online".toList →
      fb ≠ "Download Subtitles Searcher".toList →
      strContains fb "search results".toList = false →
      extract_filename (some cell) name = fb) ∧
    (∀ name : Str, extract_filename none name = name) ∧
    extract_filename (some ⟨none, ["Movie 2024".toList, "Some.Movie.2024.WEB".toList]⟩)
        "Some Movie".toList = "Some.Movie.2024.WEB".toList ∧
    extract_filename (some ⟨none, ["Some Movie".toList, "Watch online".toList]⟩)
        "Some Movie".toList = "Some Movie".toList := by
  refine ⟨?_, ?_, fun name => rfl, by decide, by decide⟩
  · intro cell name s hspan hs
    simp [extract_filename, hspan, hs]
  · intro cell name t0 fb rest hspan htexts hfb h1 h2 h3
    rcases hspan with hspan | hspan <;>
      simp [extract_filename, hspan, htexts, hfb, h1, h2, h3] <;>
      rw [if_pos ⟨by simpa using h1, by simpa using h2, by simpa using h3⟩]

/-- C8 witness: the fallback branch applied to a concrete row. -/
theorem filename_priority_wit :
    extract_filename
        (some ⟨none, ["Pulp Fiction".toList, "Pulp.Fiction.1994.REMUX".toList]⟩)
        "Pulp Fiction".toList
      = "Pulp.Fiction.1994.REMUX".toList :=
  filename_priority.2.1 ⟨none, ["Pulp Fiction".toList, "Pulp.Fiction.1994.REMUX".toList]⟩
    "Pulp Fiction".toList "Pulp Fiction".toList "Pulp.Fiction.1994.REMUX".toList []
    (Or.inl rfl) (by decide) (by decide) (by decide) (by decide) (by decide)

end Scraper
